import Mathlib

/-!
# Verification of `media_collection.py`

A shallow embedding of the media-collection pipeline
(`src/media_collection.py`) in Lean 4, together with proofs of the
behavioural claims about it.

Embedding conventions:
* bytes are `Nat` values below 256, byte strings are `List Nat`;
* `hashlib.md5(...).hexdigest()` is implemented bit-for-bit (RFC 1321)
  over the UTF-8 encoding of the input string, as `url.encode()` does;
* `requests` responses, local `open`/`write` success and mid-stream
  failures are an oracle (`World`), fixed for a run, so that the
  pipeline is a deterministic function of the oracle;
* the `ThreadPoolExecutor` dispatch is linearised: workers only share
  the grow-only file set, and every claim proved here is about the
  per-item results, the final file set and the set of issued network
  calls, all of which are insensitive to interleaving of this kind;
* `pandas` reads a missing CSV cell as NaN; a cell is therefore an
  `Option String`, with `none` for NaN.
-/

namespace MediaCollection

/-! ## Byte-string utilities -/

/-- Little-endian byte decomposition of `x` into `n` bytes
(`int.to_bytes(n, "little")`-style, modular). -/
def toLEBytes (n x : Nat) : List Nat :=
  (List.range n).map (fun i => x >>> (8 * i) % 256)

/-- Little-endian 32-bit word from a list of bytes. -/
def fromLEBytes (bs : List Nat) : Nat :=
  bs.foldr (fun b acc => b + 256 * acc) 0

/-- Split a list into chunks of `k + 1` elements; the last chunk may be
shorter.  This is the splitting that `response.iter_content(block_size)`
performs on the response body. -/
def chunksAux (k : Nat) : List Nat → List (List Nat)
  | [] => []
  | x :: xs => ((x :: xs).take (k + 1)) :: chunksAux k ((x :: xs).drop (k + 1))
termination_by l => l.length
decreasing_by
  simp only [List.drop, List.length_drop, List.length_cons]
  omega

@[simp] theorem chunksAux_nil (k : Nat) : chunksAux k [] = [] := by
  simp [chunksAux]

theorem chunksAux_cons (k : Nat) (x : Nat) (xs : List Nat) :
    chunksAux k (x :: xs) =
      (x :: xs.take k) :: chunksAux k (xs.drop k) := by
  rw [chunksAux]
  simp [List.take_succ_cons, List.drop_succ_cons]

theorem chunksAux_join_aux (k : Nat) :
    ∀ n, ∀ l : List Nat, l.length ≤ n → (chunksAux k l).flatten = l := by
  intro n
  induction n with
  | zero =>
    intro l h
    rw [List.length_eq_zero.mp (Nat.le_zero.mp h)]
    simp
  | succ n ih =>
    intro l h
    cases l with
    | nil => simp
    | cons x xs =>
      rw [chunksAux_cons]
      have hd : (xs.drop k).length ≤ n := by
        simp only [List.length_drop, List.length_cons] at *
        omega
      simp [ih _ hd]

/-- Joining the chunks gives back the original list: nothing is lost or
reordered by chunked iteration. -/
theorem chunksAux_join (k : Nat) (l : List Nat) :
    (chunksAux k l).flatten = l :=
  chunksAux_join_aux k l.length l (Nat.le_refl _)

theorem chunksAux_length_le_aux (k : Nat) :
    ∀ n, ∀ l : List Nat, l.length ≤ n → ∀ c ∈ chunksAux k l, c.length ≤ k + 1 := by
  intro n
  induction n with
  | zero =>
    intro l h
    rw [List.length_eq_zero.mp (Nat.le_zero.mp h)]
    simp
  | succ n ih =>
    intro l h
    cases l with
    | nil => simp
    | cons x xs =>
      rw [chunksAux_cons]
      intro c hc
      rcases List.mem_cons.mp hc with h1 | h1
      · subst h1
        simp [List.length_take]
      · have hd : (xs.drop k).length ≤ n := by
          simp only [List.length_drop, List.length_cons] at *
          omega
        exact ih _ hd c h1

/-- Every chunk has at most `k + 1` elements. -/
theorem chunksAux_length_le (k : Nat) (l : List Nat) :
    ∀ c ∈ chunksAux k l, c.length ≤ k + 1 :=
  chunksAux_length_le_aux k l.length l (Nat.le_refl _)

theorem chunksAux_dropLast_length_aux (k : Nat) :
    ∀ n, ∀ l : List Nat, l.length ≤ n →
      ∀ c ∈ (chunksAux k l).dropLast, c.length = k + 1 := by
  intro n
  induction n with
  | zero =>
    intro l h
    rw [List.length_eq_zero.mp (Nat.le_zero.mp h)]
    simp
  | succ n ih =>
    intro l h
    cases l with
    | nil => simp
    | cons x xs =>
      rw [chunksAux_cons]
      intro c hc
      cases hrest : chunksAux k (xs.drop k) with
      | nil => simp [hrest] at hc
      | cons y ys =>
        rw [hrest] at hc
        rw [List.dropLast_cons_of_ne_nil (by simp)] at hc
        rcases List.mem_cons.mp hc with h1 | h1
        · subst h1
          have hne : xs.drop k ≠ [] := by
            intro hcon
            rw [hcon] at hrest
            simp at hrest
          have hlen : k < xs.length := by
            by_contra hge
            push_neg at hge
            exact hne (List.drop_eq_nil_of_le hge)
          simp [List.length_take, Nat.min_eq_left (Nat.le_of_lt hlen)]
        · have hd : (xs.drop k).length ≤ n := by
            simp only [List.length_drop, List.length_cons] at *
            omega
          exact ih _ hd c (hrest ▸ h1)

/-- Every chunk except possibly the last has exactly `k + 1` elements:
the chunks are fixed-size. -/
theorem chunksAux_dropLast_length (k : Nat) (l : List Nat) :
    ∀ c ∈ (chunksAux k l).dropLast, c.length = k + 1 :=
  chunksAux_dropLast_length_aux k l.length l (Nat.le_refl _)

theorem chunksAux_count_aux (k : Nat) :
    ∀ n, ∀ l : List Nat, l.length ≤ n →
      (chunksAux k l).length = (l.length + k) / (k + 1) := by
  intro n
  induction n with
  | zero =>
    intro l h
    rw [List.length_eq_zero.mp (Nat.le_zero.mp h)]
    simp [Nat.div_eq_of_lt (Nat.lt_succ_self k)]
  | succ n ih =>
    intro l h
    cases l with
    | nil => simp [Nat.div_eq_of_lt (Nat.lt_succ_self k)]
    | cons x xs =>
      rw [chunksAux_cons]
      have hd : (xs.drop k).length ≤ n := by
        simp only [List.length_drop, List.length_cons] at *
        omega
      have hrec := ih _ hd
      simp only [List.length_cons, List.length_drop] at hrec ⊢
      rw [hrec]
      have hsplit : xs.length + 1 + k = xs.length + (k + 1) := by omega
      rw [hsplit, Nat.add_div_right _ (Nat.succ_pos k)]
      rcases Nat.lt_or_ge xs.length k with hc | hc
      · rw [Nat.sub_eq_zero_of_le (Nat.le_of_lt hc)]
        rw [Nat.div_eq_of_lt (by omega), Nat.div_eq_of_lt (by omega)]
      · rw [Nat.sub_add_cancel hc]

/-- Number of chunks: the ceiling of `length / (k + 1)`. -/
theorem chunksAux_count (k : Nat) (l : List Nat) :
    (chunksAux k l).length = (l.length + k) / (k + 1) :=
  chunksAux_count_aux k l.length l (Nat.le_refl _)

/-- Sum of the chunk sizes is the total length. -/
theorem chunksAux_sum (k : Nat) (l : List Nat) :
    ((chunksAux k l).map List.length).sum = l.length := by
  have h := chunksAux_join k l
  calc ((chunksAux k l).map List.length).sum
      = (chunksAux k l).flatten.length := (List.length_flatten _).symm
    _ = l.length := by rw [h]

/-! ## UTF-8 encoding

`url.encode()` in `hash_url` encodes the string as UTF-8.  We encode a
`Char` (a Unicode scalar value) by the standard UTF-8 arithmetic. -/

/-- UTF-8 bytes of one Unicode scalar value. -/
def charUtf8 (c : Char) : List Nat :=
  let n := c.toNat
  if n < 0x80 then [n]
  else if n < 0x800 then [0xC0 + n / 64, 0x80 + n % 64]
  else if n < 0x10000 then
    [0xE0 + n / 4096, 0x80 + n / 64 % 64, 0x80 + n % 64]
  else
    [0xF0 + n / 262144, 0x80 + n / 4096 % 64, 0x80 + n / 64 % 64, 0x80 + n % 64]

/-- `s.encode()`: the UTF-8 byte string of `s`. -/
def utf8Encode (s : String) : List Nat :=
  (s.data.map charUtf8).flatten

/-! ## MD5 (`hashlib.md5`)

A direct transcription of RFC 1321 over byte lists, with 32-bit
arithmetic carried out in `Nat` modulo `2 ^ 32`. -/

/-- The 64 MD5 sine-table constants `K[i]`. -/
def md5K : List Nat :=
  [0xd76aa478, 0xe8c7b756, 0x242070db, 0xc1bdceee,
   0xf57c0faf, 0x4787c62a, 0xa8304613, 0xfd469501,
   0x698098d8, 0x8b44f7af, 0xffff5bb1, 0x895cd7be,
   0x6b901122, 0xfd987193, 0xa679438e, 0x49b40821,
   0xf61e2562, 0xc040b340, 0x265e5a51, 0xe9b6c7aa,
   0xd62f105d, 0x02441453, 0xd8a1e681, 0xe7d3fbc8,
   0x21e1cde6, 0xc33707d6, 0xf4d50d87, 0x455a14ed,
   0xa9e3e905, 0xfcefa3f8, 0x676f02d9, 0x8d2a4c8a,
   0xfffa3942, 0x8771f681, 0x6d9d6122, 0xfde5380c,
   0xa4beea44, 0x4bdecfa9, 0xf6bb4b60, 0xbebfbc70,
   0x289b7ec6, 0xeaa127fa, 0xd4ef3085, 0x04881d05,
   0xd9d4d039, 0xe6db99e5, 0x1fa27cf8, 0xc4ac5665,
   0xf4292244, 0x432aff97, 0xab9423a7, 0xfc93a039,
   0x655b59c3, 0x8f0ccc92, 0xffeff47d, 0x85845dd1,
   0x6fa87e4f, 0xfe2ce6e0, 0xa3014314, 0x4e0811a1,
   0xf7537e82, 0xbd3af235, 0x2ad7d2bb, 0xeb86d391]

/-- The 64 per-round left-rotation amounts `s[i]`. -/
def md5S : List Nat :=
  [7, 12, 17, 22, 7, 12, 17, 22, 7, 12, 17, 22, 7, 12, 17, 22,
   5, 9, 14, 20, 5, 9, 14, 20, 5, 9, 14, 20, 5, 9, 14, 20,
   4, 11, 16, 23, 4, 11, 16, 23, 4, 11, 16, 23, 4, 11, 16, 23,
   6, 10, 15, 21, 6, 10, 15, 21, 6, 10, 15, 21, 6, 10, 15, 21]

/-- 32-bit left rotation. -/
def leftrotate (x n : Nat) : Nat :=
  ((x <<< n) % 4294967296) ||| ((x % 4294967296) >>> (32 - n))

/-- Round functions F, G, H, I, selected by the round index. -/
def md5Mix (i b c d : Nat) : Nat :=
  if i < 16 then (b &&& c) ||| ((b ^^^ 0xffffffff) &&& d)
  else if i < 32 then (d &&& b) ||| ((d ^^^ 0xffffffff) &&& c)
  else if i < 48 then b ^^^ c ^^^ d
  else c ^^^ (b ||| (d ^^^ 0xffffffff))

/-- Message-word index `g` used in round `i`. -/
def md5Idx (i : Nat) : Nat :=
  if i < 16 then i
  else if i < 32 then (5 * i + 1) % 16
  else if i < 48 then (3 * i + 5) % 16
  else 7 * i % 16

/-- One of the 64 MD5 rounds on the state `(A, B, C, D)`, with `M` the
sixteen 32-bit words of the current block. -/
def md5Round (M : List Nat) (st : Nat × Nat × Nat × Nat) (i : Nat) :
    Nat × Nat × Nat × Nat :=
  let a := st.1
  let b := st.2.1
  let c := st.2.2.1
  let d := st.2.2.2
  let f := (md5Mix i b c d + a + md5K.getD i 0 + M.getD (md5Idx i) 0) % 4294967296
  (d, (b + leftrotate f (md5S.getD i 0)) % 4294967296, b, c)

/-- The sixteen little-endian 32-bit words of a 64-byte block. -/
def md5Words (block : List Nat) : List Nat :=
  (chunksAux 3 block).map fromLEBytes

/-- Process one 64-byte block, updating the running digest state. -/
def md5Block (st : Nat × Nat × Nat × Nat) (block : List Nat) :
    Nat × Nat × Nat × Nat :=
  let M := md5Words block
  let r := (List.range 64).foldl (md5Round M) st
  ((st.1 + r.1) % 4294967296, (st.2.1 + r.2.1) % 4294967296,
   (st.2.2.1 + r.2.2.1) % 4294967296, (st.2.2.2 + r.2.2.2) % 4294967296)

/-- MD5 padding: a `0x80` byte, zeros up to 56 mod 64, then the bit
length as a 64-bit little-endian integer. -/
def md5Pad (msg : List Nat) : List Nat :=
  msg ++ [0x80] ++ List.replicate ((119 - msg.length % 64) % 64) 0
      ++ toLEBytes 8 (msg.length * 8 % 18446744073709551616)

/-- The 16-byte MD5 digest of a byte string. -/
def md5Bytes (msg : List Nat) : List Nat :=
  let st := (chunksAux 63 (md5Pad msg)).foldl md5Block
    (0x67452301, 0xefcdab89, 0x98badcfe, 0x10325476)
  toLEBytes 4 st.1 ++ toLEBytes 4 st.2.1 ++ toLEBytes 4 st.2.2.1
    ++ toLEBytes 4 st.2.2.2

/-- Lowercase hexadecimal digit. -/
def hexDigit (d : Nat) : Char :=
  if d < 10 then Char.ofNat (48 + d) else Char.ofNat (87 + d)

/-- Two lowercase hexadecimal digits of a byte. -/
def byteHex (b : Nat) : List Char :=
  [hexDigit (b / 16 % 16), hexDigit (b % 16)]

/-- `hexdigest()` of a byte string: lowercase hexadecimal. -/
def hexdigest (bs : List Nat) : String :=
  String.mk (bs.map byteHex).flatten

/-- `hash_url` (media_collection.py line 19):
`hashlib.md5(url.encode()).hexdigest()`. -/
def hash_url (url : String) : String :=
  hexdigest (md5Bytes (utf8Encode url))

/-! ## HTML documents

`bs4.BeautifulSoup(response.text, "html.parser")` yields a tree of
elements and text nodes.  Since the page arrives over the network, the
oracle below hands the pipeline the already-parsed tree of each
response (`html.parser` is lenient and total, so parsing itself has no
failure mode). -/

/-- A parsed HTML node: a text node, or an element with a tag name, an
attribute list and children. -/
inductive Node where
  | text (s : String)
  | elem (tag : String) (attrs : List (String × String)) (children : List Node)

/-- `tag.get(name)`: the value of an attribute, `None` when absent
(for a text node `bs4` has no attributes). -/
def Node.get (n : Node) (name : String) : Option String :=
  match n with
  | .text _ => none
  | .elem _ attrs _ => (attrs.find? (fun p => p.1 == name)).map Prod.snd

/-- Split a character list on spaces (the list of space-separated
segments, empty segments included), accumulating the current segment
reversed. -/
def splitClassesAux : List Char → List Char → List String
  | cur, [] => [String.mk cur.reverse]
  | cur, c :: cs =>
    if c == ' ' then String.mk cur.reverse :: splitClassesAux [] cs
    else splitClassesAux (c :: cur) cs

/-- `class_=c` matching: the space-split `class` attribute value
contains `c`. -/
def Node.hasClass (n : Node) (c : String) : Bool :=
  match n.get "class" with
  | some v => (splitClassesAux [] v.data).contains c
  | none => false

/-- `tag.name == t`. -/
def Node.isTag (n : Node) (t : String) : Bool :=
  match n with
  | .text _ => false
  | .elem tag _ _ => tag == t

mutual

/-- All descendants of the nodes of a forest satisfying `p`, in
document order, each node listed before its own descendants — the
order in which `find_all` reports matches. -/
def findAllList (p : Node → Bool) : List Node → List Node
  | [] => []
  | n :: ns => (if p n then [n] else []) ++ findAllInside p n ++ findAllList p ns

/-- All proper descendants of a node satisfying `p`, in document
order (`element.find_all` never reports the element itself). -/
def findAllInside (p : Node → Bool) : Node → List Node
  | .text _ => []
  | .elem _ _ children => findAllList p children

end

/-- `soup.find_all("div", class_="origin-top-right")` predicate. -/
def isMarkerDiv (n : Node) : Bool :=
  n.isTag "div" && n.hasClass "origin-top-right"

/-- `container.find_all("a")` predicate. -/
def isAnchor (n : Node) : Bool :=
  n.isTag "a"

/-! ## Errors

The Python code signals failure by raising; a raised exception is an
`Except.error` here.  Every constructor names the Python exception
class actually raised at the corresponding place in the source. -/

/-- Exceptions that `extract_highest_quality_video_url` can raise:
a `requests` transport exception from `requests.get`, or the
`IndexError` from subscripting an empty `find_all` result with `[0]`. -/
inductive PyErr where
  | transportError
  | indexError
deriving DecidableEq, Repr

/-- Modelled from the spec: the error taxonomy of §7 assigns resolution
failures to classes `TransportError` and `NotFound` ("expected page
structure absent, video resolution only").  This classification maps
each exception the resolver can raise to its spec class: the
`IndexError` arises exactly when the expected container or anchor is
absent, which the spec calls `NotFound`. -/
inductive ResolveError where
  | notFound
  | transportError
deriving DecidableEq, Repr

/-- Modelled from the spec: classification of a resolver exception in
the spec's §7 taxonomy. -/
def classifyResolveError : PyErr → ResolveError
  | .indexError => .notFound
  | .transportError => .transportError

/-- Parsing-and-selection part of `extract_highest_quality_video_url`
(media_collection.py lines 68–72), given the parsed landing page:

* `download_button = data.find_all("div", class_="origin-top-right")[0]`
* `quality_buttons = download_button.find_all("a")`
* `highest_quality_url = quality_buttons[0].get("href")`

Subscripting `[0]` on an empty list raises `IndexError`; `.get`
returns `None` when the attribute is absent. -/
def extractFromDoc (doc : List Node) : Except PyErr (Option String) :=
  match findAllList isMarkerDiv doc with
  | [] => .error .indexError
  | download_button :: _ =>
    match findAllInside isAnchor download_button with
    | [] => .error .indexError
    | first :: _ => .ok (first.get "href")

/-! ## The effect oracle

All I/O is deterministic relative to an oracle fixed for the run:
the network's answer to each GET, and whether `open`/`write` succeed
on each local path.  `requests.get` is modelled by `World.net`; a
response carries the status, the `content-length` header, the body
bytes (`response.content`), the parsed tree of `response.text`, and a
mid-stream failure point for `iter_content` (`none` when the stream
completes; `some j` when iteration raises after `j` chunks, as a
truncated chunked stream does). -/

/-- Outcome of `requests.get(url)`. -/
inductive NetResult where
  | transportError
  | response (status : Nat) (contentLength : Option Nat) (body : List Nat)
      (doc : List Node) (streamCut : Option Nat)

/-- The I/O oracle for one run. -/
structure World where
  net : String → NetResult
  openOk : String → Bool
  writeOk : String → Bool

/-- The target directories as a flat map from path to file content. -/
def Fs : Type := List (String × List Nat)

/-- `os.path.exists(path)`. -/
def fsExists (path : String) (fs : Fs) : Bool :=
  fs.any (fun e => e.1 == path)

/-- `os.path.join(download_dir, file_name)` (POSIX). -/
def os_path_join (dir name : String) : String :=
  dir ++ "/" ++ name

/-- The file content at `path`, if a file exists there. -/
def fsLookup (path : String) (fs : Fs) : Option (List Nat) :=
  (fs.find? (fun e => e.1 == path)).map Prod.snd

/-- `f"{x}"` applied to a CSV cell: `pandas` reads a missing cell as
the float NaN, which formats as `"nan"`. -/
def fmtCell : Option String → String
  | some s => s
  | none => "nan"

/-- `f"{x}"` applied to a value of the computed hash column, which
holds a string or Python `None` (formatted `"None"`). -/
def fmtObj : Option String → String
  | some s => s
  | none => "None"

/-- Per-item outcome, as recorded by the log: skip message, success
message, or one of the two error messages. -/
inductive DispatchResult where
  | skipped
  | succeeded
  | failed
deriving DecidableEq, Repr

/-- `response.raise_for_status()` raises `requests.HTTPError` exactly
for status codes in `[400, 600)`. -/
def raiseForStatus (status : Nat) : Bool :=
  400 ≤ status && status < 600

/-! ## Image fetcher (`download_image`, lines 23–45) -/

/-- Result of one `download_image` call: the updated file map, the
logged outcome, and the URLs actually passed to `requests.get`. -/
structure ImgOut where
  fs : Fs
  res : DispatchResult
  fetched : List String

/-- The image target path (lines 25–26):
`os.path.join(download_dir, f"{image_hash}.jpg")`. -/
def image_file_path (download_dir : String) (image_hash : Option String) : String :=
  os_path_join download_dir (fmtCell image_hash ++ ".jpg")

/-- `download_image(image_url, image_hash, download_dir)` against file
state `fs`.  The existence check precedes the `try`; `raise_for_status`
precedes `open`, so an `HTTPError` or transport error creates no file;
a failing `open` creates no file; a failing `write` leaves the file
that `open('wb')` created, truncated to empty.  Every exception is
caught by the function's own handlers. -/
def download_image (w : World) (image_url image_hash : Option String)
    (download_dir : String) (fs : Fs) : ImgOut :=
  let file_path := image_file_path download_dir image_hash
  if fsExists file_path fs then ⟨fs, .skipped, []⟩
  else
    match image_url with
    | none => ⟨fs, .failed, []⟩
    | some u =>
      match w.net u with
      | .transportError => ⟨fs, .failed, [u]⟩
      | .response status _ body _ _ =>
        if raiseForStatus status then ⟨fs, .failed, [u]⟩
        else if w.openOk file_path then
          if w.writeOk file_path then ⟨(file_path, body) :: fs, .succeeded, [u]⟩
          else ⟨(file_path, []) :: fs, .failed, [u]⟩
        else ⟨fs, .failed, [u]⟩

/-! ## Video URL resolver (`extract_highest_quality_video_url`, lines 65–72) -/

/-- The full resolver: `requests.get(api_url)` (note: no
`raise_for_status` here — any response's text is parsed), then the
container/anchor selection from the parsed tree. -/
def extract_highest_quality_video_url (w : World) (api_url : String) :
    Except PyErr (Option String) :=
  match w.net api_url with
  | .transportError => .error .transportError
  | .response _ _ _ doc _ => extractFromDoc doc

/-! ## Streaming video fetcher (`download_video`, lines 75–102) -/

/-- `block_size = 1024` (line 89). -/
def block_size : Nat := 1024

/-- `response.iter_content(block_size)`: the body in 1024-byte chunks,
the last possibly shorter. -/
def iter_content (body : List Nat) : List (List Nat) :=
  chunksAux (block_size - 1) body

/-- Result of one `download_video` call: file map, outcome, fetched
URLs, the `tqdm` bar's declared total, and the successive
`progress_bar.update` arguments. -/
structure VidOut where
  fs : Fs
  res : DispatchResult
  fetched : List String
  total : Nat
  progress : List Nat

/-- The video target path (lines 77–78 and 123–124):
`os.path.join(download_dir, f"{video_hash}.mp4")`. -/
def video_file_path (download_dir : String) (video_hash : Option String) : String :=
  os_path_join download_dir (fmtObj video_hash ++ ".mp4")

/-- `download_video(url, video_hash, download_dir)` against file state
`fs`.  Existence check first; `raise_for_status` before `open`;
`total_size = int(response.headers.get("content-length", 0))`; then
each chunk is reported to the progress bar and written.  A mid-stream
failure (`streamCut = some j`) or a failing write leaves the partial
file that was already written; every exception is caught by the
function's own handlers. -/
def download_video (w : World) (url : Option String) (video_hash : Option String)
    (download_dir : String) (fs : Fs) : VidOut :=
  let file_path := video_file_path download_dir video_hash
  if fsExists file_path fs then ⟨fs, .skipped, [], 0, []⟩
  else
    match url with
    | none => ⟨fs, .failed, [], 0, []⟩
    | some u =>
      match w.net u with
      | .transportError => ⟨fs, .failed, [u], 0, []⟩
      | .response status contentLength body _ streamCut =>
        if raiseForStatus status then ⟨fs, .failed, [u], 0, []⟩
        else
          let total_size := contentLength.getD 0
          if w.openOk file_path then
            if w.writeOk file_path then
              match streamCut with
              | none =>
                ⟨(file_path, (iter_content body).flatten) :: fs, .succeeded,
                  [u], total_size, (iter_content body).map List.length⟩
              | some j =>
                ⟨(file_path, ((iter_content body).take j).flatten) :: fs, .failed,
                  [u], total_size, ((iter_content body).take j).map List.length⟩
            else
              match iter_content body with
              | [] => ⟨(file_path, []) :: fs, .succeeded, [u], total_size, []⟩
              | c :: _ => ⟨(file_path, []) :: fs, .failed, [u], total_size, [c.length]⟩
          else ⟨fs, .failed, [u], total_size, []⟩

/-! ## Work deduplication (lines 49–50 and 106–107)

`media_data.dropna(subset=[f]).drop_duplicates(subset=[f])`: first the
rows whose cell `f` is NaN are dropped, then rows repeating an earlier
row's value of `f` are dropped (`keep='first'`). -/

/-- An input row of the images CSV: the two fields the pipeline reads. -/
structure ImageRow where
  image_url : Option String
  image_hash : Option String
deriving DecidableEq, Repr

/-- An input row of the videos CSV: the one field the pipeline reads. -/
structure VideoRow where
  video_url : Option String
deriving DecidableEq, Repr

/-- `dropna(subset=[key])`. -/
def dropna (key : α → Option String) (rows : List α) : List α :=
  rows.filter (fun r => (key r).isSome)

/-- `drop_duplicates(subset=[key])` with the default `keep='first'`:
a row survives iff no earlier row has the same key value. -/
def drop_duplicates (key : α → Option String) : List α → List α
  | [] => []
  | r :: rs => r :: drop_duplicates key (rs.filter (fun s => key s != key r))
termination_by l => l.length
decreasing_by
  simp only [List.length_cons]
  exact Nat.lt_succ_of_le (List.length_filter_le _ _)

/-- `unique_images` (line 50). -/
def unique_images (rows : List ImageRow) : List ImageRow :=
  drop_duplicates ImageRow.image_url (dropna ImageRow.image_url rows)

/-- `unique_videos` (line 107). -/
def unique_videos (rows : List VideoRow) : List VideoRow :=
  drop_duplicates VideoRow.video_url (dropna VideoRow.video_url rows)

/-- The `video_hash` column (line 114):
`unique_videos['video_url'].apply(lambda x: hash_url(x) if pd.notna(x) else None)`. -/
def video_hash_of (r : VideoRow) : Option String :=
  r.video_url.map hash_url

/-! ## Pipelines (`download_images`, lines 47–62; `download_videos`,
lines 104–136)

The worker pool is linearised: items are processed in submission
order, threading the file map through.  Workers share only the
grow-only file map, so the per-item outcomes, the final file map and
the issued GETs proved about below do not depend on the interleaving.
`as_completed`/`future.result()` only joins the futures — the worker
functions catch all their exceptions, so the join raises nothing. -/

/-- Result of a pipeline run: final file map, per-item outcomes in
item order, and every URL passed to `requests.get`. -/
structure RunOut where
  fs : Fs
  results : List DispatchResult
  fetched : List String

/-- The image worker loop: one `download_image` per deduplicated row. -/
def run_images (w : World) (download_dir : String) :
    List ImageRow → Fs → RunOut
  | [], fs => ⟨fs, [], []⟩
  | r :: rs, fs =>
    let o := download_image w r.image_url r.image_hash download_dir fs
    let rest := run_images w download_dir rs o.fs
    ⟨rest.fs, o.res :: rest.results, o.fetched ++ rest.fetched⟩

/-- `download_images(csv_path, download_dir)`, with `rows` the parsed
CSV and `fs` the directory state. -/
def download_images (w : World) (rows : List ImageRow)
    (download_dir : String) (fs : Fs) : RunOut :=
  run_images w download_dir (unique_images rows) fs

/-- Result of one iteration of the `download_videos` loop body plus
the task it submitted: the loop checks existence, resolves, and
submits `download_video(highest_quality_url, video_hash, dir)`. -/
structure VidItemOut where
  fs : Fs
  res : DispatchResult
  fetched : List String
  apiCalls : List String
  submitted : List (Option String × Option String)

/-- The landing-page URL resolved for a row (line 130):
`f"https://twitsave.com/info?url={video_url}"`. -/
def info_api (r : VideoRow) : String :=
  "https://twitsave.com/info?url=" ++ fmtCell r.video_url

/-- One iteration of the `download_videos` loop (lines 118–133) for
row `r`, together with the submitted `download_video` task's effect.
The loop re-reads `row['video_hash']` and checks existence *before*
resolving; the resolution call sits in its own `try`, so a resolver
exception is logged and the loop continues. -/
def process_video_item (w : World) (r : VideoRow) (download_dir : String)
    (fs : Fs) : VidItemOut :=
  let video_hash := video_hash_of r
  let file_path := video_file_path download_dir video_hash
  if fsExists file_path fs then ⟨fs, .skipped, [], [], []⟩
  else
    let api_url := info_api r
    match extract_highest_quality_video_url w api_url with
    | .error _ => ⟨fs, .failed, [api_url], [api_url], []⟩
    | .ok highest_quality_url =>
      let o := download_video w highest_quality_url video_hash download_dir fs
      ⟨o.fs, o.res, api_url :: o.fetched, [api_url],
        [(highest_quality_url, video_hash)]⟩

/-- Result of the videos pipeline: also records, in `apiCalls`, the
resolution GETs issued to the twitsave info endpoint (an item's first
network action), and in `submitted` the argument pairs (resolved URL,
hash) of every submitted `download_video` task. -/
structure VideosRunOut where
  fs : Fs
  results : List DispatchResult
  fetched : List String
  apiCalls : List String
  submitted : List (Option String × Option String)

/-- The video loop over the deduplicated rows. -/
def run_videos (w : World) (download_dir : String) :
    List VideoRow → Fs → VideosRunOut
  | [], fs => ⟨fs, [], [], [], []⟩
  | r :: rs, fs =>
    let o := process_video_item w r download_dir fs
    let rest := run_videos w download_dir rs o.fs
    ⟨rest.fs, o.res :: rest.results, o.fetched ++ rest.fetched,
      o.apiCalls ++ rest.apiCalls, o.submitted ++ rest.submitted⟩

/-- `download_videos(csv_path, download_dir)`. -/
def download_videos (w : World) (rows : List VideoRow)
    (download_dir : String) (fs : Fs) : VideosRunOut :=
  run_videos w download_dir (unique_videos rows) fs

/-- Result of `run_media_collection`. -/
structure MediaRunOut where
  fs : Fs
  imageResults : List DispatchResult
  videoResults : List DispatchResult
  fetched : List String

/-- `run_media_collection` (lines 139–169): the two sibling pipelines
against their directories, joined.  They share only the file map (and
target distinct directories); linearised images-then-videos. -/
def run_media_collection (w : World) (imageRows : List ImageRow)
    (videoRows : List VideoRow) (image_save_dir video_save_dir : String)
    (fs : Fs) : MediaRunOut :=
  let a := download_images w imageRows image_save_dir fs
  let b := download_videos w videoRows video_save_dir a.fs
  ⟨b.fs, a.results, b.results, a.fetched ++ b.fetched⟩

/-! ## Properties of the deduplication -/

theorem drop_duplicates_nil (key : α → Option String) :
    drop_duplicates key [] = [] := by
  rw [drop_duplicates]

theorem drop_duplicates_cons (key : α → Option String) (r : α) (rs : List α) :
    drop_duplicates key (r :: rs) =
      r :: drop_duplicates key (rs.filter (fun s => key s != key r)) := by
  rw [drop_duplicates]

theorem drop_duplicates_subset_aux (key : α → Option String) :
    ∀ n, ∀ l : List α, l.length ≤ n → ∀ x ∈ drop_duplicates key l, x ∈ l := by
  intro n
  induction n with
  | zero =>
    intro l h
    rw [List.length_eq_zero.mp (Nat.le_zero.mp h), drop_duplicates_nil]
    simp
  | succ n ih =>
    intro l h
    cases l with
    | nil =>
      rw [drop_duplicates_nil]
      simp
    | cons r rs =>
      rw [drop_duplicates_cons]
      intro x hx
      rcases List.mem_cons.mp hx with h1 | h1
      · exact h1 ▸ List.mem_cons_self r rs
      · have hlen : (rs.filter (fun s => key s != key r)).length ≤ n := by
          have := List.length_filter_le (fun s => key s != key r) rs
          simp only [List.length_cons] at h
          omega
        have := ih _ hlen x h1
        exact List.mem_cons_of_mem r (List.mem_of_mem_filter this)

/-- Rows surviving `drop_duplicates` come from the input. -/
theorem drop_duplicates_subset (key : α → Option String) (l : List α) :
    ∀ x ∈ drop_duplicates key l, x ∈ l :=
  drop_duplicates_subset_aux key l.length l (Nat.le_refl _)

theorem drop_duplicates_filter_aux (key : α → Option String) :
    ∀ n, ∀ l : List α, l.length ≤ n → ∀ u : String,
      (drop_duplicates key l).filter (fun r => key r == some u)
        = (l.filter (fun r => key r == some u)).take 1 := by
  intro n
  induction n with
  | zero =>
    intro l h
    rw [List.length_eq_zero.mp (Nat.le_zero.mp h), drop_duplicates_nil]
    simp
  | succ n ih =>
    intro l h
    cases l with
    | nil =>
      rw [drop_duplicates_nil]
      simp
    | cons r rs =>
      intro u
      rw [drop_duplicates_cons]
      have hlen : (rs.filter (fun s => key s != key r)).length ≤ n := by
        have := List.length_filter_le (fun s => key s != key r) rs
        simp only [List.length_cons] at h
        omega
      by_cases hk : key r = some u
      · have htail :
            (drop_duplicates key (rs.filter (fun s => key s != key r))).filter
              (fun r => key r == some u) = [] := by
          rw [List.filter_eq_nil_iff]
          intro x hx
          have hmem := drop_duplicates_subset key _ x hx
          have := List.of_mem_filter hmem
          simp only [bne_iff_ne, ne_eq] at this
          simp only [beq_iff_eq]
          rw [hk] at this
          exact this
        rw [List.filter_cons_of_pos (by simp [hk]), htail]
        rw [List.filter_cons_of_pos (by simp [hk])]
        simp
      · have hstep :
            (rs.filter (fun s => key s != key r)).filter (fun r => key r == some u)
              = rs.filter (fun r => key r == some u) := by
          rw [List.filter_filter]
          apply List.filter_congr
          intro a _
          by_cases ha : key a = some u
          · simp [ha, Ne.symm hk]
          · simp [beq_false_of_ne ha]
        rw [List.filter_cons_of_neg (by simp [hk]), ih _ hlen u, hstep]
        rw [List.filter_cons_of_neg (by simp [hk])]

/-- The rows of `drop_duplicates key l` bearing key `u` are exactly
the first row of `l` bearing key `u`: first occurrence wins, later
duplicates are dropped. -/
theorem drop_duplicates_filter (key : α → Option String) (l : List α) (u : String) :
    (drop_duplicates key l).filter (fun r => key r == some u)
      = (l.filter (fun r => key r == some u)).take 1 :=
  drop_duplicates_filter_aux key l.length l (Nat.le_refl _) u

theorem drop_duplicates_pairwise_aux (key : α → Option String) :
    ∀ n, ∀ l : List α, l.length ≤ n →
      (drop_duplicates key l).Pairwise (fun a b => key a ≠ key b) := by
  intro n
  induction n with
  | zero =>
    intro l h
    rw [List.length_eq_zero.mp (Nat.le_zero.mp h), drop_duplicates_nil]
    exact List.Pairwise.nil
  | succ n ih =>
    intro l h
    cases l with
    | nil =>
      rw [drop_duplicates_nil]
      exact List.Pairwise.nil
    | cons r rs =>
      rw [drop_duplicates_cons]
      have hlen : (rs.filter (fun s => key s != key r)).length ≤ n := by
        have := List.length_filter_le (fun s => key s != key r) rs
        simp only [List.length_cons] at h
        omega
      refine List.Pairwise.cons ?_ (ih _ hlen)
      intro x hx
      have hmem := drop_duplicates_subset key _ x hx
      have := List.of_mem_filter hmem
      simp only [bne_iff_ne, ne_eq] at this
      exact fun hcon => this hcon.symm

/-- Keys are pairwise distinct after deduplication. -/
theorem drop_duplicates_pairwise (key : α → Option String) (l : List α) :
    (drop_duplicates key l).Pairwise (fun a b => key a ≠ key b) :=
  drop_duplicates_pairwise_aux key l.length l (Nat.le_refl _)

/-- Membership of a URL in the deduplicated work set is membership in
the input: the set of work URLs does not depend on row order. -/
theorem drop_duplicates_dropna_mem (key : α → Option String) (l : List α)
    (u : String) :
    (∃ r ∈ drop_duplicates key (dropna key l), key r = some u)
      ↔ ∃ r ∈ l, key r = some u := by
  constructor
  · rintro ⟨r, hr, hk⟩
    exact ⟨r, List.mem_of_mem_filter (drop_duplicates_subset key _ r hr), hk⟩
  · rintro ⟨r, hr, hk⟩
    have hmem : r ∈ (dropna key l).filter (fun r => key r == some u) := by
      rw [List.mem_filter]
      exact ⟨List.mem_filter.mpr ⟨hr, by simp [hk]⟩, by simp [hk]⟩
    have hne : (dropna key l).filter (fun r => key r == some u) ≠ [] :=
      List.ne_nil_of_mem hmem
    have h1 :
        ((dropna key l).filter (fun r => key r == some u)).take 1 ≠ [] := by
      cases hc : (dropna key l).filter (fun r => key r == some u) with
      | nil => exact absurd hc hne
      | cons a as => simp [hc]
    rw [← drop_duplicates_filter key (dropna key l) u] at h1
    rcases List.exists_mem_of_ne_nil _ h1 with ⟨x, hx⟩
    rcases List.mem_filter.mp hx with ⟨hx1, hx2⟩
    exact ⟨x, hx1, by simpa using hx2⟩

/-! ## Claim C3 -/

/-- C3: deduplication drops every record whose URL cell is
absent/empty (a missing CSV cell is NaN, dropped by `dropna`),
collapses records sharing a URL to the single first occurrence, and on
the records `[{url:"A"}, {url:"A"}, {url:"B"}, {url:None}]` yields
exactly the work set `{A, B}`; the work-URL set depends only on which
URLs occur, not on input order. -/
theorem c3_deduplication :
    ((unique_images
        [⟨some "A", some "h1"⟩, ⟨some "A", some "h2"⟩,
         ⟨some "B", some "h3"⟩, ⟨none, some "h4"⟩]).map ImageRow.image_url
      = [some "A", some "B"])
    ∧ (∀ rows : List ImageRow, ∀ r ∈ unique_images rows, r.image_url ≠ none)
    ∧ (∀ rows : List ImageRow, ∀ u : String,
        (unique_images rows).filter (fun r => r.image_url == some u)
          = (rows.filter (fun r => r.image_url == some u)).take 1)
    ∧ (∀ rows : List ImageRow, ∀ u : String,
        ((∃ r ∈ unique_images rows, r.image_url = some u)
          ↔ ∃ r ∈ rows, r.image_url = some u)) := by
  refine ⟨?_, ?_, ?_, ?_⟩
  · simp [unique_images, dropna, drop_duplicates_cons, drop_duplicates_nil,
      List.filter,
      show ((some "B" : Option String) != some "A") = true by decide,
      show ((some "A" : Option String) != some "A") = false by decide]
  · intro rows r hr
    have h1 := drop_duplicates_subset ImageRow.image_url _ r hr
    have h2 := List.of_mem_filter h1
    simp only [Option.isSome_iff_exists] at h2
    rcases h2 with ⟨u, hu⟩
    simp [hu]
  · intro rows u
    have h1 := drop_duplicates_filter ImageRow.image_url
      (dropna ImageRow.image_url rows) u
    have h2 :
        (dropna ImageRow.image_url rows).filter
            (fun r => r.image_url == some u)
          = rows.filter (fun r => r.image_url == some u) := by
      unfold dropna
      rw [List.filter_filter]
      apply List.filter_congr
      intro a _
      by_cases ha : a.image_url = some u
      · simp [ha]
      · simp [beq_false_of_ne ha]
    rw [unique_images, h1, h2]
  · intro rows u
    exact drop_duplicates_dropna_mem ImageRow.image_url rows u

/-! ## Claims C2, C6, C10 — the video URL resolver -/

/-- C6: whenever the landing page's first marker container has at
least one anchor among its descendants, the resolver returns the
`href` attribute of the first such anchor in document order
(`findAllInside` enumerates descendants in document order). -/
theorem c6_first_anchor_selected (w : World) (api_url : String) (st : Nat)
    (cl : Option Nat) (body : List Nat) (doc : List Node) (cut : Option Nat)
    (btn : Node) (btns : List Node) (anch : Node) (anchors : List Node)
    (hnet : w.net api_url = .response st cl body doc cut)
    (hbtn : findAllList isMarkerDiv doc = btn :: btns)
    (ha : findAllInside isAnchor btn = anch :: anchors) :
    extract_highest_quality_video_url w api_url = .ok (anch.get "href") := by
  simp [extract_highest_quality_video_url, hnet, extractFromDoc, hbtn, ha]

/-- Landing-page fixture for C6: the marker container holds two
anchors, `href1` first in document order (nested one level down) and
`href2` second; an anchor outside the container is ignored. -/
def twoAnchorDoc : List Node :=
  [.elem "html" [] [
    .elem "div" [("class", "origin-top-right menu")] [
      .elem "p" [] [.elem "a" [("href", "href1")] [.text "HD"]],
      .elem "a" [("href", "href2")] [.text "SD"]],
    .elem "a" [("href", "elsewhere")] []]]

/-- A fixed oracle serving `twoAnchorDoc` for every GET. -/
def twoAnchorWorld : World :=
  ⟨fun _ => .response 200 none [] twoAnchorDoc none, fun _ => true, fun _ => true⟩

/-- Witness for C6: on the `[href1, href2]` fixture the resolver
returns `href1`. -/
theorem c6_first_anchor_selected_witness :
    extract_highest_quality_video_url twoAnchorWorld "https://twitsave.com/info?url=u"
      = .ok (some "href1") := by
  have h := c6_first_anchor_selected twoAnchorWorld
    "https://twitsave.com/info?url=u" 200 none [] twoAnchorDoc none
    (.elem "div" [("class", "origin-top-right menu")] [
      .elem "p" [] [.elem "a" [("href", "href1")] [.text "HD"]],
      .elem "a" [("href", "href2")] [.text "SD"]])
    []
    (.elem "a" [("href", "href1")] [.text "HD"])
    [.elem "a" [("href", "href2")] [.text "SD"]]
    rfl
    (by simp [twoAnchorDoc, findAllList, findAllInside, isMarkerDiv,
      Node.isTag, Node.hasClass, Node.get, splitClassesAux])
    (by simp [findAllList, findAllInside, isAnchor, Node.isTag])
  rw [h]
  rfl

/-- C2: when the expected marker container is absent from the fetched
landing page, or the container holds no anchor, the resolver does not
return a value: it signals an error (the `IndexError` raised by
subscripting the empty `find_all` result), which the spec's §7
taxonomy classifies as `NotFound`; the caller's per-item handler
catches it (claim C8 / `process_video_item`). -/
theorem c2_resolver_notfound (w : World) (api_url : String) (st : Nat)
    (cl : Option Nat) (body : List Nat) (doc : List Node) (cut : Option Nat)
    (hnet : w.net api_url = .response st cl body doc cut)
    (habsent : findAllList isMarkerDiv doc = []
      ∨ ∃ btn btns, findAllList isMarkerDiv doc = btn :: btns
          ∧ findAllInside isAnchor btn = []) :
    ∃ e : PyErr, extract_highest_quality_video_url w api_url = .error e
      ∧ classifyResolveError e = .notFound := by
  refine ⟨.indexError, ?_, rfl⟩
  rcases habsent with h | ⟨btn, btns, hbtn, hanch⟩
  · simp [extract_highest_quality_video_url, hnet, extractFromDoc, h]
  · simp [extract_highest_quality_video_url, hnet, extractFromDoc, hbtn, hanch]

/-- A landing page without the marker container. -/
def noMarkerDoc : List Node :=
  [.elem "html" [] [.elem "div" [("class", "other")] [
    .elem "a" [("href", "x")] []]]]

/-- A fixed oracle serving `noMarkerDoc` for every GET. -/
def noMarkerWorld : World :=
  ⟨fun _ => .response 200 none [] noMarkerDoc none, fun _ => true, fun _ => true⟩

/-- Witness for C2: on a page without the marker container the
resolver yields an error classified `NotFound`. -/
theorem c2_resolver_notfound_witness :
    ∃ e : PyErr,
      extract_highest_quality_video_url noMarkerWorld "https://twitsave.com/info?url=u"
        = .error e ∧ classifyResolveError e = .notFound :=
  c2_resolver_notfound noMarkerWorld "https://twitsave.com/info?url=u" 200 none
    [] noMarkerDoc none rfl
    (Or.inl (by simp [noMarkerDoc, findAllList, findAllInside, isMarkerDiv,
      Node.isTag, Node.hasClass, Node.get, splitClassesAux]))

/-- Landing page whose marker container's first anchor carries no
`href` attribute. -/
def noHrefDoc : List Node :=
  [.elem "div" [("class", "origin-top-right")] [
    .elem "a" [("download", "video.mp4")] [.text "download"]]]

/-- A fixed oracle serving `noHrefDoc` for every GET. -/
def noHrefWorld : World :=
  ⟨fun _ => .response 200 none [] noHrefDoc none, fun _ => true, fun _ => true⟩

/-- C10: on a landing page whose marker container's first anchor has
no `href` attribute, the resolver returns `.ok none` — a normal
return of Python `None`, not an error — and the videos pipeline then
submits exactly that `None` to `download_video` as the direct URL (the
submitted task's first argument). -/
theorem c10_none_href_passed_to_fetcher :
    extractFromDoc noHrefDoc = .ok none
    ∧ (download_videos noHrefWorld [⟨some "u"⟩] "vids" []).submitted
        = [(none, some (hash_url "u"))] := by
  have hdoc : extractFromDoc noHrefDoc = .ok none := by
    simp [extractFromDoc, noHrefDoc, findAllList, findAllInside, isMarkerDiv,
      isAnchor, Node.isTag, Node.hasClass, Node.get, splitClassesAux]
  refine ⟨hdoc, ?_⟩
  simp [download_videos, unique_videos, dropna, drop_duplicates_cons,
    drop_duplicates_nil, run_videos, process_video_item, video_hash_of,
    fsExists, extract_highest_quality_video_url, noHrefWorld, hdoc, fmtCell,
    download_video, info_api, List.filter]

/-- Witness for C3: the membership clause applied at a concrete input. -/
theorem c3_deduplication_witness :
    ∃ r ∈ unique_images [(⟨some "A", some "h1"⟩ : ImageRow), ⟨none, some "h2"⟩],
      r.image_url = some "A" :=
  (c3_deduplication.2.2.2 [⟨some "A", some "h1"⟩, ⟨none, some "h2"⟩] "A").mpr
    ⟨⟨some "A", some "h1"⟩, by simp, rfl⟩

/-! ## Claim C5 — the image fetcher -/

/-- An oracle answering every GET with status 304 and a one-byte body. -/
def w304 : World :=
  ⟨fun _ => .response 304 none [55] [] none, fun _ => true, fun _ => true⟩

/-- Counterexample to C5: 304 is not a 2xx status, yet
`raise_for_status` raises only for statuses in `[400, 600)`, so the
fetch falls through to the write: a file is created (and success is
logged) on this non-2xx response, contradicting "on a non-2xx HTTP
status ... no file is created at the target path". -/
theorem c5_counterexample_file_created_on_304 :
    (304 < 200 ∨ 300 ≤ 304)
    ∧ (download_image w304 (some "u") (some "h") "imgs" []).fs
        = [(image_file_path "imgs" (some "h"), [55])]
    ∧ (download_image w304 (some "u") (some "h") "imgs" []).res
        = .succeeded := by
  refine ⟨by omega, ?_, ?_⟩ <;>
    simp [download_image, w304, fsExists, raiseForStatus]

/-- C5 as amended: with no file initially at the target, the image
fetch creates no file on a transport failure or on an HTTP status in
`[400, 600)` (the statuses `raise_for_status` raises for — other
non-2xx statuses fall through and are written like successes); when it
reports success it creates exactly one file, holding the entire
response body. -/
theorem c5_image_fetch_amended (w : World) (u : String) (h : Option String)
    (dir : String) (fs : Fs)
    (hnew : fsExists (image_file_path dir h) fs = false) :
    (w.net u = .transportError →
      (download_image w (some u) h dir fs).fs = fs
      ∧ (download_image w (some u) h dir fs).res = .failed)
    ∧ (∀ st cl body doc cut, w.net u = .response st cl body doc cut →
        (raiseForStatus st = true →
          (download_image w (some u) h dir fs).fs = fs
          ∧ (download_image w (some u) h dir fs).res = .failed)
        ∧ (raiseForStatus st = false →
            w.openOk (image_file_path dir h) = true →
            w.writeOk (image_file_path dir h) = true →
          (download_image w (some u) h dir fs).fs
            = (image_file_path dir h, body) :: fs
          ∧ (download_image w (some u) h dir fs).res = .succeeded)) := by
  refine ⟨?_, ?_⟩
  · intro hnet
    simp [download_image, hnew, hnet]
  · intro st cl body doc cut hnet
    refine ⟨?_, ?_⟩
    · intro hrs
      simp [download_image, hnew, hnet, hrs]
    · intro hrs hopen hwrite
      simp [download_image, hnew, hnet, hrs, hopen, hwrite]

/-- An oracle answering every GET with status 200 and body `[9, 9]`. -/
def wImgOk : World :=
  ⟨fun _ => .response 200 none [9, 9] [] none, fun _ => true, fun _ => true⟩

/-- Witness for the amended C5: a successful fetch creates exactly the
target file with the whole body. -/
theorem c5_image_fetch_amended_witness :
    (download_image wImgOk (some "u") (some "h") "imgs" []).fs
      = [(image_file_path "imgs" (some "h"), [9, 9])]
    ∧ (download_image wImgOk (some "u") (some "h") "imgs" []).res
      = .succeeded :=
  ((c5_image_fetch_amended wImgOk "u" (some "h") "imgs" [] rfl).2
    200 none [9, 9] [] none rfl).2 rfl rfl rfl

/-! ## Claim C1 — identities and target paths -/

theorem fsLookup_cons_ne (q p : String) (c : List Nat) (fs : Fs)
    (hne : q ≠ p) : fsLookup p ((q, c) :: fs) = fsLookup p fs := by
  simp [fsLookup, List.find?_cons_of_neg, beq_false_of_ne hne]

/-- The image fetcher touches the file map only at the path built from
the input `image_hash` field — for any value of `image_url`. -/
theorem download_image_frame (w : World) (url h : Option String)
    (dir : String) (fs : Fs) (p : String)
    (hne : p ≠ image_file_path dir h) :
    fsLookup p (download_image w url h dir fs).fs = fsLookup p fs := by
  have h2 : image_file_path dir h ≠ p := Ne.symm hne
  unfold download_image
  by_cases hex : fsExists (image_file_path dir h) fs = true
  · simp [hex]
  · simp only [hex, if_false, Bool.false_eq_true]
    cases url with
    | none => rfl
    | some u =>
      cases hnet : w.net u with
      | transportError => simp [hnet]
      | response st cl body doc cut =>
        by_cases hrs : raiseForStatus st = true
        · simp [hnet, hrs]
        · by_cases hop : w.openOk (image_file_path dir h) = true
          · by_cases hwr : w.writeOk (image_file_path dir h) = true
            · simp [hnet, hrs, hop, hwr, fsLookup_cons_ne _ _ _ _ h2]
            · simp [hnet, hrs, hop, hwr, fsLookup_cons_ne _ _ _ _ h2]
          · simp [hnet, hrs, hop]

/-- The video fetcher touches the file map only at the path built from
its `video_hash` argument. -/
theorem download_video_frame (w : World) (url vh : Option String)
    (dir : String) (fs : Fs) (p : String)
    (hne : p ≠ video_file_path dir vh) :
    fsLookup p (download_video w url vh dir fs).fs = fsLookup p fs := by
  have h2 : video_file_path dir vh ≠ p := Ne.symm hne
  unfold download_video
  by_cases hex : fsExists (video_file_path dir vh) fs = true
  · simp [hex]
  · simp only [hex, if_false, Bool.false_eq_true]
    cases url with
    | none => rfl
    | some u =>
      cases hnet : w.net u with
      | transportError => simp [hnet]
      | response st cl body doc cut =>
        by_cases hrs : raiseForStatus st = true
        · simp [hnet, hrs]
        · by_cases hop : w.openOk (video_file_path dir vh) = true
          · by_cases hwr : w.writeOk (video_file_path dir vh) = true
            · cases cut <;>
                simp [hnet, hrs, hop, hwr, fsLookup_cons_ne _ _ _ _ h2]
            · cases hic : iter_content body <;>
                simp [hnet, hrs, hop, hwr, hic, fsLookup_cons_ne _ _ _ _ h2]
          · simp [hnet, hrs, hop]

/-- Counterexample to C1: two image records with the same `sourceUrl`
but different input `image_hash` cells get different target paths, so
the image identity is not a function of the URL at all (in particular
not a hash of it); and the pipeline indeed writes the file under the
input hash cell `h1`. -/
theorem c1_counterexample_image_identity_not_url_hash :
    ((⟨some "A", some "h1"⟩ : ImageRow).image_url
      = (⟨some "A", some "h2"⟩ : ImageRow).image_url)
    ∧ image_file_path "imgs" (⟨some "A", some "h1"⟩ : ImageRow).image_hash
        ≠ image_file_path "imgs" (⟨some "A", some "h2"⟩ : ImageRow).image_hash
    ∧ (download_images wImgOk [⟨some "A", some "h1"⟩] "imgs" []).fs
        = [(image_file_path "imgs" (some "h1"), [9, 9])] := by
  refine ⟨rfl, by decide, ?_⟩
  simp [download_images, unique_images, dropna, drop_duplicates_cons,
    drop_duplicates_nil, run_images, download_image, fsExists, wImgOk,
    raiseForStatus, List.filter]

/-- C1 as amended: the Identity Hasher (`hash_url`) is deterministic
and, for video items, the identity is exactly `hash_url(video_url)`:
the pipeline's hash column holds it and a video item touches the file
map only at the path built from it.  For image items the identity is
the input `image_hash` cell used verbatim — it is not derived from
`image_url`: an image item touches the file map only at the path built
from its hash cell, whatever its URL. -/
theorem c1_identity_amended :
    (∀ u v : String, u = v → hash_url u = hash_url v)
    ∧ (∀ r : VideoRow, ∀ u : String, r.video_url = some u →
        video_hash_of r = some (hash_url u))
    ∧ (∀ w : World, ∀ r : VideoRow, ∀ dir : String, ∀ fs : Fs,
        ∀ u p : String, r.video_url = some u →
        p ≠ video_file_path dir (some (hash_url u)) →
        fsLookup p (process_video_item w r dir fs).fs = fsLookup p fs)
    ∧ (∀ w : World, ∀ url h : Option String, ∀ dir : String, ∀ fs : Fs,
        ∀ p : String, p ≠ image_file_path dir h →
        fsLookup p (download_image w url h dir fs).fs = fsLookup p fs) := by
  refine ⟨fun u v huv => huv ▸ rfl, ?_, ?_, ?_⟩
  · intro r u hu
    simp [video_hash_of, hu]
  · intro w r dir fs u p hu hne
    have hhash : video_hash_of r = some (hash_url u) := by
      simp [video_hash_of, hu]
    unfold process_video_item
    rw [hhash]
    by_cases hex : fsExists (video_file_path dir (some (hash_url u))) fs = true
    · simp [hex]
    · simp only [hex, if_false, Bool.false_eq_true]
      cases hresolve : extract_highest_quality_video_url w (info_api r) with
      | error e => simp [hresolve]
      | ok v => simp [hresolve, download_video_frame w v _ dir fs p hne]
  · intro w url h dir fs p hne
    exact download_image_frame w url h dir fs p hne

/-- Witness for the amended C1: at a concrete video row the hash
column holds `hash_url` of the URL, and a foreign path is untouched by
an image fetch. -/
theorem c1_identity_amended_witness :
    video_hash_of ⟨some "https://v.example/x"⟩
      = some (hash_url "https://v.example/x")
    ∧ fsLookup "other/p.jpg"
        (download_image wImgOk (some "u") (some "h") "imgs" []).fs
      = fsLookup "other/p.jpg" [] :=
  ⟨c1_identity_amended.2.1 ⟨some "https://v.example/x"⟩
      "https://v.example/x" rfl,
    c1_identity_amended.2.2.2 wImgOk (some "u") (some "h") "imgs" []
      "other/p.jpg" (by decide)⟩

/-! ## Claims C7 and C9 — the streaming video fetcher -/

theorem fsLookup_cons_self (p : String) (c : List Nat) (fs : Fs) :
    fsLookup p ((p, c) :: fs) = some c := by
  simp [fsLookup, List.find?_cons_of_pos]

/-- C7: the streaming fetch reads the body in 1024-byte chunks (every
chunk is at most 1024 bytes and all but the last exactly 1024),
reports each chunk's byte count to the progress bar once, and — when
the declared content-length `N` matches the body — ends with an
`N`-byte file whose progress reports sum to `N`, in
`⌈N / 1024⌉` progress calls. -/
theorem c7_streaming_chunks (w : World) (u : String) (vh : Option String)
    (dir : String) (fs : Fs) (st N : Nat) (body : List Nat) (doc : List Node)
    (hnew : fsExists (video_file_path dir vh) fs = false)
    (hnet : w.net u = .response st (some N) body doc none)
    (hrs : raiseForStatus st = false)
    (hop : w.openOk (video_file_path dir vh) = true)
    (hwr : w.writeOk (video_file_path dir vh) = true)
    (hlen : body.length = N) :
    (download_video w (some u) vh dir fs).res = .succeeded
    ∧ (download_video w (some u) vh dir fs).total = N
    ∧ (download_video w (some u) vh dir fs).progress
        = (iter_content body).map List.length
    ∧ (∀ c ∈ iter_content body, c.length ≤ block_size)
    ∧ (∀ c ∈ (iter_content body).dropLast, c.length = block_size)
    ∧ (download_video w (some u) vh dir fs).progress.sum = N
    ∧ (download_video w (some u) vh dir fs).progress.length
        = (N + (block_size - 1)) / block_size
    ∧ fsLookup (video_file_path dir vh) (download_video w (some u) vh dir fs).fs
        = some body := by
  have hred :
      download_video w (some u) vh dir fs
        = ⟨(video_file_path dir vh, (iter_content body).flatten) :: fs,
            .succeeded, [u], N, (iter_content body).map List.length⟩ := by
    simp [download_video, hnew, hnet, hrs, hop, hwr]
  rw [hred]
  refine ⟨rfl, rfl, rfl, ?_, ?_, ?_, ?_, ?_⟩
  · intro c hc
    have := chunksAux_length_le (block_size - 1) body c hc
    simpa [block_size] using this
  · intro c hc
    have := chunksAux_dropLast_length (block_size - 1) body c hc
    simpa [block_size] using this
  · simpa [iter_content, chunksAux_sum (block_size - 1) body] using hlen
  · simp only [List.length_map, iter_content, chunksAux_count, hlen,
      show block_size - 1 + 1 = block_size from rfl]
  · rw [iter_content, chunksAux_join, fsLookup_cons_self]

/-- An oracle serving a 204800-byte body with content-length 204800. -/
def w204800 : World :=
  ⟨fun _ => .response 200 (some 204800) (List.replicate 204800 37) [] none,
    fun _ => true, fun _ => true⟩

/-- Witness for C7: 204800 bytes served in 1024-byte chunks yield 200
progress calls summing to 204800 and a 204800-byte file. -/
theorem c7_streaming_chunks_witness :
    (download_video w204800 (some "v") (some "h") "vids" []).res = .succeeded
    ∧ (download_video w204800 (some "v") (some "h") "vids" []).progress.length
        = 200
    ∧ (download_video w204800 (some "v") (some "h") "vids" []).progress.sum
        = 204800
    ∧ fsLookup (video_file_path "vids" (some "h"))
        (download_video w204800 (some "v") (some "h") "vids" []).fs
      = some (List.replicate 204800 37) := by
  have h := c7_streaming_chunks w204800 "v" (some "h") "vids" [] 200 204800
    (List.replicate 204800 37) [] rfl rfl rfl rfl rfl
    (List.length_replicate 204800 37)
  refine ⟨h.1, ?_, h.2.2.2.2.2.1, h.2.2.2.2.2.2.2⟩
  rw [h.2.2.2.2.2.2.1]
  norm_num [block_size]

/-- C9: a response without a `Content-Length` header does not make the
streamed fetch fail: the declared total defaults to 0 (feeding only
the progress display), while the whole body is still read chunk by
chunk, reported, and written to the target file. -/
theorem c9_missing_content_length (w : World) (u : String) (vh : Option String)
    (dir : String) (fs : Fs) (st : Nat) (body : List Nat) (doc : List Node)
    (hnew : fsExists (video_file_path dir vh) fs = false)
    (hnet : w.net u = .response st none body doc none)
    (hrs : raiseForStatus st = false)
    (hop : w.openOk (video_file_path dir vh) = true)
    (hwr : w.writeOk (video_file_path dir vh) = true) :
    (download_video w (some u) vh dir fs).res = .succeeded
    ∧ (download_video w (some u) vh dir fs).total = 0
    ∧ (download_video w (some u) vh dir fs).progress
        = (iter_content body).map List.length
    ∧ (download_video w (some u) vh dir fs).progress.sum = body.length
    ∧ fsLookup (video_file_path dir vh) (download_video w (some u) vh dir fs).fs
        = some body := by
  have hred :
      download_video w (some u) vh dir fs
        = ⟨(video_file_path dir vh, (iter_content body).flatten) :: fs,
            .succeeded, [u], 0, (iter_content body).map List.length⟩ := by
    simp [download_video, hnew, hnet, hrs, hop, hwr]
  rw [hred]
  refine ⟨rfl, rfl, rfl, ?_, ?_⟩
  · simp [iter_content, chunksAux_sum (block_size - 1) body]
  · rw [iter_content, chunksAux_join, fsLookup_cons_self]

/-- An oracle whose response has no `Content-Length` header. -/
def wNoCL : World :=
  ⟨fun _ => .response 200 none [1, 2, 3] [] none, fun _ => true, fun _ => true⟩

/-- Witness for C9. -/
theorem c9_missing_content_length_witness :
    (download_video wNoCL (some "v") (some "h") "vids" []).res = .succeeded
    ∧ (download_video wNoCL (some "v") (some "h") "vids" []).total = 0
    ∧ fsLookup (video_file_path "vids" (some "h"))
        (download_video wNoCL (some "v") (some "h") "vids" []).fs
      = some [1, 2, 3] := by
  have h := c9_missing_content_length wNoCL "v" (some "h") "vids" [] 200
    [1, 2, 3] [] rfl rfl rfl rfl rfl
  exact ⟨h.1, h.2.1, h.2.2.2.2⟩

/-! ## Claim C8 — per-item error isolation -/

theorem run_images_results_length (w : World) (dir : String)
    (items : List ImageRow) (fs : Fs) :
    (run_images w dir items fs).results.length = items.length := by
  induction items generalizing fs with
  | nil => rfl
  | cons r rs ih => simp [run_images, ih]

theorem run_videos_results_length (w : World) (dir : String)
    (items : List VideoRow) (fs : Fs) :
    (run_videos w dir items fs).results.length = items.length := by
  induction items generalizing fs with
  | nil => rfl
  | cons r rs ih => simp [run_videos, ih]

/-- Ten image rows with distinct URLs and hashes. -/
def tenRows : List ImageRow :=
  [⟨some "u1", some "h1"⟩, ⟨some "u2", some "h2"⟩, ⟨some "u3", some "h3"⟩,
   ⟨some "u4", some "h4"⟩, ⟨some "u5", some "h5"⟩, ⟨some "u6", some "h6"⟩,
   ⟨some "u7", some "h7"⟩, ⟨some "u8", some "h8"⟩, ⟨some "u9", some "h9"⟩,
   ⟨some "u10", some "h10"⟩]

/-- An oracle answering `u5` with HTTP 500 and every other URL with a
working 200 response. -/
def w500 : World :=
  ⟨fun u => if u = "u5" then .response 500 none [] [] none
    else .response 200 none [1] [] none,
   fun _ => true, fun _ => true⟩

/-- C8: every per-item error is caught inside the worker and becomes a
logged `Failed` outcome, so a batch always runs to completion — the
result list has one terminal outcome per work item, for any oracle.
In the concrete 10-item batch where item `u5` always returns HTTP 500,
the run completes with 9 `Succeeded` and 1 `Failed`. -/
theorem c8_error_isolation :
    (∀ w : World, ∀ rows : List ImageRow, ∀ dir : String, ∀ fs : Fs,
      (download_images w rows dir fs).results.length
        = (unique_images rows).length)
    ∧ (∀ w : World, ∀ rows : List VideoRow, ∀ dir : String, ∀ fs : Fs,
      (download_videos w rows dir fs).results.length
        = (unique_videos rows).length)
    ∧ ((run_images w500 "imgs" tenRows []).results.length = 10
      ∧ (run_images w500 "imgs" tenRows []).results.count .failed = 1
      ∧ (run_images w500 "imgs" tenRows []).results.count .succeeded = 9) := by
  refine ⟨?_, ?_, ?_⟩
  · intro w rows dir fs
    exact run_images_results_length w dir (unique_images rows) fs
  · intro w rows dir fs
    exact run_videos_results_length w dir (unique_videos rows) fs
  · refine ⟨?_, ?_, ?_⟩ <;> decide

/-! ## Claim C4 — the existence gate and idempotence

The file map only grows, each fetcher touches only its own target
path, and every branch of a fetcher is deterministic in the oracle; so
an item whose target exists is skipped without any GET, and a second
run of the whole pipeline changes nothing. -/

/-- Path-set inclusion between file maps. -/
def FsSub (fs g : Fs) : Prop :=
  ∀ p, fsExists p fs = true → fsExists p g = true

theorem fsSub_refl (fs : Fs) : FsSub fs fs := fun _ hp => hp

theorem fsSub_trans {a b c : Fs} (h1 : FsSub a b) (h2 : FsSub b c) :
    FsSub a c := fun p hp => h2 p (h1 p hp)

theorem fsExists_cons (p q : String) (c : List Nat) (fs : Fs) :
    fsExists p ((q, c) :: fs) = ((q == p) || fsExists p fs) := by
  simp [fsExists, List.any_cons]

theorem fsSub_cons (q : String) (c : List Nat) (fs : Fs) :
    FsSub fs ((q, c) :: fs) := by
  intro p hp
  simp [fsExists_cons, hp]

theorem fsExists_cons_self (q : String) (c : List Nat) (fs : Fs) :
    fsExists q ((q, c) :: fs) = true := by
  simp [fsExists_cons]

/-- An image fetch leaves the file map unchanged or adds exactly its
own target. -/
theorem download_image_shape (w : World) (url h : Option String)
    (dir : String) (fs : Fs) :
    (download_image w url h dir fs).fs = fs
    ∨ ∃ c, (download_image w url h dir fs).fs
        = (image_file_path dir h, c) :: fs := by
  unfold download_image
  by_cases hex : fsExists (image_file_path dir h) fs = true
  · left
    simp [hex]
  · simp only [hex, if_false, Bool.false_eq_true]
    cases url with
    | none => left; rfl
    | some u =>
      cases hnet : w.net u with
      | transportError => left; simp [hnet]
      | response st cl body doc cut =>
        by_cases hrs : raiseForStatus st = true
        · left; simp [hnet, hrs]
        · by_cases hop : w.openOk (image_file_path dir h) = true
          · by_cases hwr : w.writeOk (image_file_path dir h) = true
            · right; exact ⟨body, by simp [hnet, hrs, hop, hwr]⟩
            · right; exact ⟨[], by simp [hnet, hrs, hop, hwr]⟩
          · left; simp [hnet, hrs, hop]

theorem download_image_mono (w : World) (url h : Option String)
    (dir : String) (fs : Fs) :
    FsSub fs (download_image w url h dir fs).fs := by
  rcases download_image_shape w url h dir fs with hs | ⟨c, hs⟩
  · rw [hs]; exact fsSub_refl fs
  · rw [hs]; exact fsSub_cons _ _ _

/-- Replaying an image fetch whose result is already contained in `g`
leaves `g` unchanged: either the target now exists (skip), or the
fetch fails again identically. -/
theorem download_image_stable (w : World) (url h : Option String)
    (dir : String) (fs g : Fs)
    (hsub : FsSub (download_image w url h dir fs).fs g) :
    (download_image w url h dir g).fs = g := by
  by_cases hg : fsExists (image_file_path dir h) g = true
  · simp [download_image, hg]
  · have hfs : fsExists (image_file_path dir h) fs = false := by
      cases hb : fsExists (image_file_path dir h) fs
      · rfl
      · exact absurd (hsub _ (download_image_mono w url h dir fs _ hb)) hg
    unfold download_image
    simp only [hg, if_false, Bool.false_eq_true]
    cases url with
    | none => rfl
    | some u =>
      cases hnet : w.net u with
      | transportError => simp [hnet]
      | response st cl body doc cut =>
        by_cases hrs : raiseForStatus st = true
        · simp [hnet, hrs]
        · by_cases hop : w.openOk (image_file_path dir h) = true
          · exfalso
            have hout : fsExists (image_file_path dir h)
                (download_image w (some u) h dir fs).fs = true := by
              by_cases hwr : w.writeOk (image_file_path dir h) = true
              · simp [download_image, hfs, hnet, hrs, hop, hwr,
                  fsExists_cons_self]
              · simp [download_image, hfs, hnet, hrs, hop, hwr,
                  fsExists_cons_self]
            exact absurd (hsub _ hout) hg
          · simp [hnet, hrs, hop]

/-- A video fetch leaves the file map unchanged or adds exactly its
own target. -/
theorem download_video_shape (w : World) (url vh : Option String)
    (dir : String) (fs : Fs) :
    (download_video w url vh dir fs).fs = fs
    ∨ ∃ c, (download_video w url vh dir fs).fs
        = (video_file_path dir vh, c) :: fs := by
  unfold download_video
  by_cases hex : fsExists (video_file_path dir vh) fs = true
  · left
    simp [hex]
  · simp only [hex, if_false, Bool.false_eq_true]
    cases url with
    | none => left; rfl
    | some u =>
      cases hnet : w.net u with
      | transportError => left; simp [hnet]
      | response st cl body doc cut =>
        by_cases hrs : raiseForStatus st = true
        · left; simp [hnet, hrs]
        · by_cases hop : w.openOk (video_file_path dir vh) = true
          · by_cases hwr : w.writeOk (video_file_path dir vh) = true
            · cases cut with
              | none =>
                right
                exact ⟨(iter_content body).flatten,
                  by simp [hnet, hrs, hop, hwr]⟩
              | some j =>
                right
                exact ⟨((iter_content body).take j).flatten,
                  by simp [hnet, hrs, hop, hwr]⟩
            · cases hic : iter_content body with
              | nil => right; exact ⟨[], by simp [hnet, hrs, hop, hwr, hic]⟩
              | cons c cs =>
                right; exact ⟨[], by simp [hnet, hrs, hop, hwr, hic]⟩
          · left; simp [hnet, hrs, hop]

theorem download_video_mono (w : World) (url vh : Option String)
    (dir : String) (fs : Fs) :
    FsSub fs (download_video w url vh dir fs).fs := by
  rcases download_video_shape w url vh dir fs with hs | ⟨c, hs⟩
  · rw [hs]; exact fsSub_refl fs
  · rw [hs]; exact fsSub_cons _ _ _

/-- Replaying a video fetch whose result is already contained in `g`
leaves `g` unchanged. -/
theorem download_video_stable (w : World) (url vh : Option String)
    (dir : String) (fs g : Fs)
    (hsub : FsSub (download_video w url vh dir fs).fs g) :
    (download_video w url vh dir g).fs = g := by
  by_cases hg : fsExists (video_file_path dir vh) g = true
  · simp [download_video, hg]
  · have hfs : fsExists (video_file_path dir vh) fs = false := by
      cases hb : fsExists (video_file_path dir vh) fs
      · rfl
      · exact absurd (hsub _ (download_video_mono w url vh dir fs _ hb)) hg
    unfold download_video
    simp only [hg, if_false, Bool.false_eq_true]
    cases url with
    | none => rfl
    | some u =>
      cases hnet : w.net u with
      | transportError => simp [hnet]
      | response st cl body doc cut =>
        by_cases hrs : raiseForStatus st = true
        · simp [hnet, hrs]
        · by_cases hop : w.openOk (video_file_path dir vh) = true
          · exfalso
            have hout : fsExists (video_file_path dir vh)
                (download_video w (some u) vh dir fs).fs = true := by
              by_cases hwr : w.writeOk (video_file_path dir vh) = true
              · cases cut <;>
                  simp [download_video, hfs, hnet, hrs, hop, hwr,
                    fsExists_cons_self]
              · cases hic : iter_content body <;>
                  simp [download_video, hfs, hnet, hrs, hop, hwr, hic,
                    fsExists_cons_self]
            exact absurd (hsub _ hout) hg
          · simp [hnet, hrs, hop]

/-- A video loop iteration leaves the file map unchanged or adds
exactly its own target. -/
theorem process_video_item_shape (w : World) (r : VideoRow) (dir : String)
    (fs : Fs) :
    (process_video_item w r dir fs).fs = fs
    ∨ ∃ c, (process_video_item w r dir fs).fs
        = (video_file_path dir (video_hash_of r), c) :: fs := by
  unfold process_video_item
  by_cases hex : fsExists (video_file_path dir (video_hash_of r)) fs = true
  · left
    simp [hex]
  · simp only [hex, if_false, Bool.false_eq_true]
    cases hres : extract_highest_quality_video_url w (info_api r) with
    | error e => left; simp [hres]
    | ok v =>
      simp only [hres]
      rcases download_video_shape w v (video_hash_of r) dir fs with hs | ⟨c, hs⟩
      · left; simpa using hs
      · right; exact ⟨c, by simpa using hs⟩

theorem process_video_item_mono (w : World) (r : VideoRow) (dir : String)
    (fs : Fs) : FsSub fs (process_video_item w r dir fs).fs := by
  rcases process_video_item_shape w r dir fs with hs | ⟨c, hs⟩
  · rw [hs]; exact fsSub_refl fs
  · rw [hs]; exact fsSub_cons _ _ _

/-- Replaying a video loop iteration whose result is already contained
in `g` leaves `g` unchanged: the resolution is deterministic, so the
iteration either skips or fails identically. -/
theorem process_video_item_stable (w : World) (r : VideoRow) (dir : String)
    (fs g : Fs) (hsub : FsSub (process_video_item w r dir fs).fs g) :
    (process_video_item w r dir g).fs = g := by
  by_cases hg : fsExists (video_file_path dir (video_hash_of r)) g = true
  · simp [process_video_item, hg]
  · have hfs : fsExists (video_file_path dir (video_hash_of r)) fs = false := by
      cases hb : fsExists (video_file_path dir (video_hash_of r)) fs
      · rfl
      · exact absurd (hsub _ (process_video_item_mono w r dir fs _ hb)) hg
    unfold process_video_item
    simp only [hg, if_false, Bool.false_eq_true]
    cases hres : extract_highest_quality_video_url w (info_api r) with
    | error e => simp [hres]
    | ok v =>
      simp only [hres]
      apply download_video_stable w v (video_hash_of r) dir fs g
      have heq : (process_video_item w r dir fs).fs
          = (download_video w v (video_hash_of r) dir fs).fs := by
        simp [process_video_item, hfs, hres]
      exact heq ▸ hsub

/-- The image loop only grows the file map. -/
theorem run_images_mono (w : World) (dir : String) (items : List ImageRow)
    (fs : Fs) : FsSub fs (run_images w dir items fs).fs := by
  induction items generalizing fs with
  | nil => exact fsSub_refl fs
  | cons r rs ih =>
    simp only [run_images]
    exact fsSub_trans (download_image_mono w r.image_url r.image_hash dir fs)
      (ih _)

/-- Replaying the image loop against any superset of its own result
changes nothing. -/
theorem run_images_stable (w : World) (dir : String) (items : List ImageRow) :
    ∀ fs g : Fs, FsSub (run_images w dir items fs).fs g →
      (run_images w dir items g).fs = g := by
  induction items with
  | nil => intro fs g hsub; rfl
  | cons r rs ih =>
    intro fs g hsub
    simp only [run_images] at hsub ⊢
    have h1 : FsSub (download_image w r.image_url r.image_hash dir fs).fs g :=
      fsSub_trans (run_images_mono w dir rs _) hsub
    rw [download_image_stable w r.image_url r.image_hash dir fs g h1]
    exact ih _ g hsub

/-- The video loop only grows the file map. -/
theorem run_videos_mono (w : World) (dir : String) (items : List VideoRow)
    (fs : Fs) : FsSub fs (run_videos w dir items fs).fs := by
  induction items generalizing fs with
  | nil => exact fsSub_refl fs
  | cons r rs ih =>
    simp only [run_videos]
    exact fsSub_trans (process_video_item_mono w r dir fs) (ih _)

/-- Replaying the video loop against any superset of its own result
changes nothing. -/
theorem run_videos_stable (w : World) (dir : String) (items : List VideoRow) :
    ∀ fs g : Fs, FsSub (run_videos w dir items fs).fs g →
      (run_videos w dir items g).fs = g := by
  induction items with
  | nil => intro fs g hsub; rfl
  | cons r rs ih =>
    intro fs g hsub
    simp only [run_videos] at hsub ⊢
    have h1 : FsSub (process_video_item w r dir fs).fs g :=
      fsSub_trans (run_videos_mono w dir rs _) hsub
    rw [process_video_item_stable w r dir fs g h1]
    exact ih _ g hsub

/-- Any URL an image fetch passes to `requests.get` is the item's own
URL. -/
theorem download_image_fetched (w : World) (url h : Option String)
    (dir : String) (fs : Fs) :
    ∀ x ∈ (download_image w url h dir fs).fetched, url = some x := by
  unfold download_image
  by_cases hex : fsExists (image_file_path dir h) fs = true
  · simp [hex]
  · simp only [hex, if_false, Bool.false_eq_true]
    cases url with
    | none => simp
    | some u =>
      cases hnet : w.net u with
      | transportError => simp [hnet]
      | response st cl body doc cut =>
        by_cases hrs : raiseForStatus st = true
        · simp [hnet, hrs]
        · by_cases hop : w.openOk (image_file_path dir h) = true
          · by_cases hwr : w.writeOk (image_file_path dir h) = true <;>
              simp [hnet, hrs, hop, hwr]
          · simp [hnet, hrs, hop]

/-- An image item whose target already exists is skipped: no GET, and
the logged outcome is the skip message. -/
theorem download_image_skip (w : World) (url h : Option String)
    (dir : String) (fs : Fs)
    (hex : fsExists (image_file_path dir h) fs = true) :
    (download_image w url h dir fs).fetched = []
    ∧ (download_image w url h dir fs).res = .skipped := by
  constructor <;> simp [download_image, hex]

/-- Every URL the image loop fetches belongs to one of its items. -/
theorem run_images_fetched (w : World) (dir : String) (items : List ImageRow) :
    ∀ fs : Fs, ∀ x ∈ (run_images w dir items fs).fetched,
      ∃ r ∈ items, r.image_url = some x := by
  induction items with
  | nil => intro fs x hx; exact absurd hx (List.not_mem_nil x)
  | cons q rs ih =>
    intro fs x hx
    simp only [run_images] at hx
    rcases List.mem_append.mp hx with h1 | h1
    · exact ⟨q, List.mem_cons_self q rs,
        download_image_fetched w q.image_url q.image_hash dir fs x h1⟩
    · rcases ih _ x h1 with ⟨r, hr, hurl⟩
      exact ⟨r, List.mem_cons_of_mem q hr, hurl⟩

/-- For the image loop over items with pairwise-distinct URLs, an item
whose target path exists before the run is never fetched. -/
theorem run_images_no_fetch (w : World) (dir : String) (items : List ImageRow) :
    ∀ fs : Fs, ∀ r : ImageRow, ∀ u : String,
      items.Pairwise (fun a b => a.image_url ≠ b.image_url) →
      r ∈ items → r.image_url = some u →
      fsExists (image_file_path dir r.image_hash) fs = true →
      u ∉ (run_images w dir items fs).fetched := by
  induction items with
  | nil => intro fs r u _ hmem; exact absurd hmem (List.not_mem_nil r)
  | cons q rs ih =>
    intro fs r u hpair hmem hurl hex hu
    simp only [run_images] at hu
    rcases List.pairwise_cons.mp hpair with ⟨hhead, htail⟩
    rcases List.mem_cons.mp hmem with hr | hr
    · subst hr
      rcases List.mem_append.mp hu with h1 | h1
      · rw [(download_image_skip w r.image_url r.image_hash dir fs hex).1] at h1
        exact absurd h1 (List.not_mem_nil u)
      · rcases run_images_fetched w dir rs _ u h1 with ⟨r2, hr2, hurl2⟩
        exact hhead r2 hr2 (hurl.trans hurl2.symm)
    · rcases List.mem_append.mp hu with h1 | h1
      · have := download_image_fetched w q.image_url q.image_hash dir fs u h1
        exact hhead r hr (this.trans hurl.symm)
      · have hex2 : fsExists (image_file_path dir r.image_hash)
            (download_image w q.image_url q.image_hash dir fs).fs = true :=
          download_image_mono w q.image_url q.image_hash dir fs _ hex
        exact ih _ r u htail hr hurl hex2 h1

/-- Any URL a video loop iteration reports as a resolution call is the
item's own twitsave info URL. -/
theorem process_video_item_apiCalls (w : World) (r : VideoRow) (dir : String)
    (fs : Fs) :
    ∀ x ∈ (process_video_item w r dir fs).apiCalls, x = info_api r := by
  unfold process_video_item
  by_cases hex : fsExists (video_file_path dir (video_hash_of r)) fs = true
  · simp [hex]
  · simp only [hex, if_false, Bool.false_eq_true]
    cases hres : extract_highest_quality_video_url w (info_api r) with
    | error e => simp [hres]
    | ok v => simp [hres]

/-- A video item whose target already exists is skipped before any
resolution: no GET at all, and the logged outcome is the skip
message. -/
theorem process_video_item_skip (w : World) (r : VideoRow) (dir : String)
    (fs : Fs)
    (hex : fsExists (video_file_path dir (video_hash_of r)) fs = true) :
    (process_video_item w r dir fs).fetched = []
    ∧ (process_video_item w r dir fs).apiCalls = []
    ∧ (process_video_item w r dir fs).res = .skipped := by
  refine ⟨?_, ?_, ?_⟩ <;> simp [process_video_item, hex]

/-- Every resolution call of the video loop belongs to one of its
items. -/
theorem run_videos_apiCalls (w : World) (dir : String) (items : List VideoRow) :
    ∀ fs : Fs, ∀ x ∈ (run_videos w dir items fs).apiCalls,
      ∃ r ∈ items, x = info_api r := by
  induction items with
  | nil => intro fs x hx; exact absurd hx (List.not_mem_nil x)
  | cons q rs ih =>
    intro fs x hx
    simp only [run_videos] at hx
    rcases List.mem_append.mp hx with h1 | h1
    · exact ⟨q, List.mem_cons_self q rs,
        process_video_item_apiCalls w q dir fs x h1⟩
    · rcases ih _ x h1 with ⟨r, hr, heq⟩
      exact ⟨r, List.mem_cons_of_mem q hr, heq⟩

/-- Rows with present, distinct URL cells have distinct info URLs. -/
theorem info_api_injective (a b : VideoRow)
    (ha : a.video_url.isSome = true) (hb : b.video_url.isSome = true)
    (hne : a.video_url ≠ b.video_url) : info_api a ≠ info_api b := by
  intro hcon
  apply hne
  have hdata := congrArg String.data hcon
  simp only [info_api, String.data_append] at hdata
  have hcell : (fmtCell a.video_url).data = (fmtCell b.video_url).data :=
    List.append_cancel_left hdata
  rcases Option.isSome_iff_exists.mp ha with ⟨x, hx⟩
  rcases Option.isSome_iff_exists.mp hb with ⟨y, hy⟩
  rw [hx, hy]
  rw [hx, hy] at hcell
  simp only [fmtCell] at hcell
  exact congrArg some (String.ext hcell)

/-- For the video loop over rows with present, pairwise-distinct URL
cells, an item whose target path exists before the run triggers no
resolution call (and hence no network traffic at all, since an item's
media GET can only follow its resolution GET). -/
theorem run_videos_no_fetch (w : World) (dir : String) (items : List VideoRow) :
    ∀ fs : Fs, ∀ r : VideoRow,
      items.Pairwise (fun a b => a.video_url ≠ b.video_url) →
      (∀ q ∈ items, q.video_url.isSome = true) →
      r ∈ items →
      fsExists (video_file_path dir (video_hash_of r)) fs = true →
      info_api r ∉ (run_videos w dir items fs).apiCalls := by
  induction items with
  | nil => intro fs r _ _ hmem; exact absurd hmem (List.not_mem_nil r)
  | cons q rs ih =>
    intro fs r hpair hsome hmem hex hu
    simp only [run_videos] at hu
    rcases List.pairwise_cons.mp hpair with ⟨hhead, htail⟩
    rcases List.mem_cons.mp hmem with hr | hr
    · subst hr
      rcases List.mem_append.mp hu with h1 | h1
      · rw [(process_video_item_skip w r dir fs hex).2.1] at h1
        exact absurd h1 (List.not_mem_nil _)
      · rcases run_videos_apiCalls w dir rs _ _ h1 with ⟨r2, hr2, heq⟩
        exact info_api_injective r r2
          (hsome r (List.mem_cons_self r rs))
          (hsome r2 (List.mem_cons_of_mem r hr2))
          (hhead r2 hr2) heq
    · rcases List.mem_append.mp hu with h1 | h1
      · have heq := process_video_item_apiCalls w q dir fs _ h1
        exact info_api_injective q r
          (hsome q (List.mem_cons_self q rs))
          (hsome r (List.mem_cons_of_mem q hr))
          (hhead r hr) heq.symm
      · have hex2 : fsExists (video_file_path dir (video_hash_of r))
            (process_video_item w q dir fs).fs = true :=
          process_video_item_mono w q dir fs _ hex
        exact ih _ r htail (fun p hp => hsome p (List.mem_cons_of_mem q hp))
          hr hex2 h1

/-- Rows surviving the videos dedup have a URL cell. -/
theorem unique_videos_isSome (rows : List VideoRow) :
    ∀ r ∈ unique_videos rows, r.video_url.isSome = true := by
  intro r hr
  have h1 := drop_duplicates_subset VideoRow.video_url _ r hr
  rw [dropna] at h1
  exact (List.mem_filter.mp h1).2

/-- C4: the pipeline is idempotent across the existence gate.  (1)
Running the full pipeline a second time against the directories left
by the first run changes the file set not at all; (2) an image item
whose target path exists before the run is never fetched; (3) a video
item whose target path exists before the run triggers no resolution
call — and its media GET could only follow its resolution GET, so no
network call at all is made for it. -/
theorem c4_existence_gate_idempotence :
    ∀ w : World, ∀ irows : List ImageRow, ∀ vrows : List VideoRow,
      ∀ idir vdir : String, ∀ fs : Fs,
    ((run_media_collection w irows vrows idir vdir
        (run_media_collection w irows vrows idir vdir fs).fs).fs
      = (run_media_collection w irows vrows idir vdir fs).fs)
    ∧ (∀ r ∈ unique_images irows, ∀ u : String, r.image_url = some u →
        fsExists (image_file_path idir r.image_hash) fs = true →
        u ∉ (download_images w irows idir fs).fetched)
    ∧ (∀ r ∈ unique_videos vrows,
        fsExists (video_file_path vdir (video_hash_of r)) fs = true →
        info_api r ∉ (download_videos w vrows vdir fs).apiCalls) := by
  intro w irows vrows idir vdir fs
  refine ⟨?_, ?_, ?_⟩
  · simp only [run_media_collection, download_images, download_videos]
    have hsubAB : FsSub (run_images w idir (unique_images irows) fs).fs
        (run_videos w vdir (unique_videos vrows)
          (run_images w idir (unique_images irows) fs).fs).fs :=
      run_videos_mono w vdir _ _
    have himg := run_images_stable w idir (unique_images irows) fs _ hsubAB
    rw [himg]
    exact run_videos_stable w vdir (unique_videos vrows)
      (run_images w idir (unique_images irows) fs).fs _
      (fsSub_refl _)
  · intro r hmem u hurl hex
    exact run_images_no_fetch w idir (unique_images irows) fs r u
      (drop_duplicates_pairwise ImageRow.image_url _) hmem hurl hex
  · intro r hmem hex
    exact run_videos_no_fetch w vdir (unique_videos vrows) fs r
      (drop_duplicates_pairwise VideoRow.video_url _)
      (unique_videos_isSome vrows) hmem hex

/-- Witness for C4: with the single image item's target file already
on disk, its URL is not fetched. -/
theorem c4_existence_gate_idempotence_witness :
    "A" ∉ (download_images wImgOk [⟨some "A", some "h"⟩] "imgs"
      [(image_file_path "imgs" (some "h"), [])]).fetched :=
  (c4_existence_gate_idempotence wImgOk [⟨some "A", some "h"⟩] [] "imgs"
      "vids" [(image_file_path "imgs" (some "h"), [])]).2.1
    ⟨some "A", some "h"⟩
    (by simp [unique_images, dropna, drop_duplicates_cons,
      drop_duplicates_nil, List.filter])
    "A" rfl (by decide)

end MediaCollection

